import Mathlib

/- Shallow embedding of src/parse.py: the header-field scanner
   EmailParser.parse_message, the RFC 2047 header decoder
   decode_email_header together with the behaviour of the CPython library
   functions it calls (email.header.decode_header, quopri.decodestring,
   binascii.a2b_qp, binascii.a2b_base64, bytes.decode), and the delimited
   record writer configured in get_csv_writer and driven by run.

   Strings are modelled as List Char, byte strings as List Nat.
   A Python function that can raise is modelled as Except PyErr.
   EmailParser.parse_message has no return statement after its loop, so a
   loop that runs to completion yields Python None; we model its result as
   Except PyErr (Option Data) where an ok none is a returned None and
   ok (some d) is a returned dict. -/

/-- Python exceptions the modelled code can raise. -/
inductive PyErr where
  | indexError
  | valueError
  | lookupError
  | unicodeDecodeError
  | headerParseError
  | binasciiError
  | assertionError
  | attributeError
deriving DecidableEq, Repr

/-- CPython Py_UNICODE_ISSPACE: the character class used both by the regex
class backslash-s on str patterns and by str.isspace and str.lstrip. -/
def isPySpace (c : Char) : Bool :=
  let n := c.toNat
  decide ((9 ≤ n ∧ n ≤ 13) ∨ (28 ≤ n ∧ n ≤ 31) ∨ n = 32 ∨ n = 133 ∨ n = 160 ∨
    n = 5760 ∨ (8192 ≤ n ∧ n ≤ 8202) ∨ n = 8232 ∨ n = 8233 ∨
    n = 8239 ∨ n = 8287 ∨ n = 12288)

/-- The line terminators recognized by Python str.splitlines. -/
def isLineBreak (c : Char) : Bool :=
  let n := c.toNat
  decide (n = 10 ∨ n = 13 ∨ n = 11 ∨ n = 12 ∨ n = 28 ∨ n = 29 ∨ n = 30 ∨
    n = 133 ∨ n = 8232 ∨ n = 8233)

/-- Whether re.match of one-or-more whitespace succeeds on the line: true
exactly when the line is nonempty and its first character is whitespace.
Note an empty line does NOT satisfy this (the regex needs one character). -/
def startsWithSpace : List Char → Bool
  | [] => false
  | c :: _ => isPySpace c

/-- The character class of the header-name capture group in parse_message:
ASCII letters and the hyphen. -/
def isFieldNameChar (c : Char) : Bool :=
  decide (('a' ≤ c ∧ c ≤ 'z') ∨ ('A' ≤ c ∧ c ≤ 'Z') ∨ c = '-')

/-- Hex digit per the character classes used in the quoted-printable
decoders (a-f, A-F, 0-9). -/
def isHexA (c : Char) : Bool :=
  decide (('0' ≤ c ∧ c ≤ '9') ∨ ('a' ≤ c ∧ c ≤ 'f') ∨ ('A' ≤ c ∧ c ≤ 'F'))

/-- Value of a hex digit character. -/
def hexVal (c : Char) : Nat :=
  if c ≤ '9' then c.toNat - 48 else if c ≤ 'F' then c.toNat - 55 else c.toNat - 87

/-- Prepend a character to the first line of a line list (helper for
splitlines). -/
def consHead (c : Char) : List (List Char) → List (List Char)
  | [] => [[c]]
  | l :: ls => (c :: l) :: ls

/-- Python str.splitlines: split at every line terminator, treating a
carriage return followed by a newline as a single terminator; a trailing
terminator does not produce an extra empty line. -/
def splitlines : List Char → List (List Char)
  | [] => []
  | '\r' :: '\n' :: r2 => [] :: splitlines r2
  | c :: rest =>
    if isLineBreak c then [] :: splitlines rest
    else consHead c (splitlines rest)

/-- Python str.lower restricted to ASCII, which is exact for the strings it
is applied to here (header names matched by an ASCII-only class, and the
encoding and charset tokens of encoded words). -/
def lowerStr (s : List Char) : List Char := s.map Char.toLower

/-- Lowercase hex digit of a nibble. -/
def hexDigitLower (n : Nat) : Char :=
  if n < 10 then Char.ofNat (48 + n) else Char.ofNat (87 + n)

/-- One character encoded by the raw-unicode-escape codec: code points
below 256 map to the identical byte; larger code points become a
backslash-u (or backslash-U) escape spelled in lowercase hex. -/
def rawUEChar (c : Char) : List Nat :=
  let n := c.toNat
  if n < 256 then [n]
  else if n < 65536 then
    [92, 117, (hexDigitLower (n / 4096 % 16)).toNat, (hexDigitLower (n / 256 % 16)).toNat,
     (hexDigitLower (n / 16 % 16)).toNat, (hexDigitLower (n % 16)).toNat]
  else
    [92, 85] ++ (List.range 8).map (fun i => (hexDigitLower (n / 16 ^ (7 - i) % 16)).toNat)

/-- bytes of a str under the raw-unicode-escape codec. -/
def rawUE (s : List Char) : List Nat := (s.map rawUEChar).flatten

/-- Continuation byte of UTF-8. -/
def utf8Cont (b : Nat) : Bool := decide (128 ≤ b ∧ b ≤ 191)

/-- Strict UTF-8 decoding as a byte-at-a-time state machine: the state
carries the partial code point, the count of continuation bytes still
expected and the admissible range of the next byte (the range encodes the
rejection of overlong forms, surrogates and code points above 0x10FFFF,
exactly the sequences bytes.decode with the utf-8 codec rejects). -/
def utf8GoSt : Option (Nat × Nat × Nat × Nat) → List Nat → Except PyErr (List Char)
  | none, [] => .ok []
  | some _, [] => .error .unicodeDecodeError
  | none, b :: rest =>
    if b < 128 then
      match utf8GoSt none rest with
      | .ok s => .ok (Char.ofNat b :: s)
      | .error e => .error e
    else if 194 ≤ b ∧ b ≤ 223 then utf8GoSt (some (b - 192, 1, 128, 191)) rest
    else if b = 224 then utf8GoSt (some (0, 2, 160, 191)) rest
    else if 225 ≤ b ∧ b ≤ 236 then utf8GoSt (some (b - 224, 2, 128, 191)) rest
    else if b = 237 then utf8GoSt (some (13, 2, 128, 159)) rest
    else if 238 ≤ b ∧ b ≤ 239 then utf8GoSt (some (b - 224, 2, 128, 191)) rest
    else if b = 240 then utf8GoSt (some (0, 3, 144, 191)) rest
    else if 241 ≤ b ∧ b ≤ 243 then utf8GoSt (some (b - 240, 3, 128, 191)) rest
    else if b = 244 then utf8GoSt (some (4, 3, 128, 143)) rest
    else .error .unicodeDecodeError
  | some (v, k, lo, hi), b :: rest =>
    if lo ≤ b ∧ b ≤ hi then
      if k = 1 then
        match utf8GoSt none rest with
        | .ok s => .ok (Char.ofNat (v * 64 + (b - 128)) :: s)
        | .error e => .error e
      else utf8GoSt (some (v * 64 + (b - 128), k - 1, 128, 191)) rest
    else .error .unicodeDecodeError

/-- bytes.decode with the utf-8 codec. -/
def utf8Decode (bs : List Nat) : Except PyErr (List Char) := utf8GoSt none bs

/-- Python codec-name normalization (encodings.normalize_encoding
restricted to the shapes occurring here): lowercase alphanumerics, other
characters replaced by an underscore. -/
def normEnc (s : List Char) : List Char :=
  s.map (fun c => if c.isAlphanum then c.toLower else '_')

/-- Names the runtime codec registry resolves to the UTF-8 codec (modelled
subset of the CPython alias table). -/
def utf8Names : List (List Char) :=
  ["utf_8".data, "utf8".data, "u8".data, "utf".data, "cp65001".data]

/-- Names resolving to the Latin-1 codec (modelled subset). -/
def latin1Names : List (List Char) :=
  ["latin_1".data, "latin1".data, "latin".data, "l1".data, "iso_8859_1".data,
   "iso8859_1".data, "8859".data, "cp819".data]

/-- Names resolving to the ASCII codec (modelled subset). -/
def asciiNames : List (List Char) := ["ascii".data, "us_ascii".data, "646".data]

/-- str construction from bytes with a named encoding: looks the codec up
in the (modelled) registry, raising LookupError for an unknown name, and
decodes, raising UnicodeDecodeError on undecodable input. -/
def pyDecode (bs : List Nat) (enc : List Char) : Except PyErr (List Char) :=
  let n := normEnc enc
  if utf8Names.contains n then utf8Decode bs
  else if latin1Names.contains n then
    if bs.all (fun b => b < 256) then .ok (bs.map Char.ofNat) else .error .valueError
  else if asciiNames.contains n then
    if bs.all (fun b => b < 128) then .ok (bs.map Char.ofNat) else .error .unicodeDecodeError
  else .error .lookupError

/-- binascii.a2b_qp (non-header mode), fuelled form; each step consumes at
least one input character so fuel one larger than the length suffices.
An equals sign followed by a newline is a soft break; doubled equals emits
one; equals with two hex digits emits the byte; any other equals is
emitted literally and scanning resumes at the following character; a
trailing lone equals is dropped. -/
def a2b_qpF : Nat → List Char → List Nat
  | 0, _ => []
  | _ + 1, [] => []
  | n + 1, c :: rest =>
    if c = '=' then
      match rest with
      | [] => []
      | d :: rest2 =>
        if d = '\n' then a2b_qpF n rest2
        else if d = '\r' then a2b_qpF n ((rest2.dropWhile (fun x => x != '\n')).drop 1)
        else if d = '=' then 61 :: a2b_qpF n rest2
        else
          match rest2 with
          | e :: rest3 =>
            if isHexA d && isHexA e then (hexVal d * 16 + hexVal e) :: a2b_qpF n rest3
            else 61 :: a2b_qpF n rest
          | [] => 61 :: a2b_qpF n rest
    else c.toNat :: a2b_qpF n rest

/-- binascii.a2b_qp on a str argument (what quopri.decodestring calls). -/
def a2b_qp (s : List Char) : List Nat := a2b_qpF (s.length + 1) s

/-- quopri.decodestring on a str: binascii.a2b_qp accepts a str only when
it is pure ASCII, raising ValueError otherwise. -/
def quopri_decodestring (s : List Char) : Except PyErr (List Nat) :=
  if s.all (fun c => c.toNat < 128) then .ok (a2b_qp s) else .error .valueError

/-- email.quoprimime.header_decode: underscore becomes a space and an
equals sign followed by exactly two hex digits becomes that character;
every other character passes through. -/
def header_decode : List Char → List Char
  | [] => []
  | '=' :: d :: e :: rest =>
    if isHexA d && isHexA e then Char.ofNat (hexVal d * 16 + hexVal e) :: header_decode rest
    else '=' :: header_decode (d :: e :: rest)
  | c :: rest => (if c = '_' then ' ' else c) :: header_decode rest

/-- Base64 alphabet value of a byte, none for bytes outside the alphabet. -/
def b64SextetB (b : Nat) : Option Nat :=
  if 65 ≤ b ∧ b ≤ 90 then some (b - 65)
  else if 97 ≤ b ∧ b ≤ 122 then some (b - 71)
  else if 48 ≤ b ∧ b ≤ 57 then some (b + 4)
  else if b = 43 then some 62
  else if b = 47 then some 63
  else none

/-- Loop of binascii.a2b_base64 in its default non-strict mode: bytes
outside the alphabet are skipped; a padding byte completing the current
quad ends decoding; a leftover quad position at the end is an error. The
quad argument holds the sextets of the current group (at most three). -/
def a2b_base64Go : List Nat → List Nat → Nat → List Nat → Except PyErr (List Nat)
  | [], quad, _, acc => if quad.length = 0 then .ok acc else .error .binasciiError
  | b :: rest, quad, pads, acc =>
    if b = 61 then
      if 2 ≤ quad.length ∧ 4 ≤ quad.length + pads + 1 then .ok acc
      else a2b_base64Go rest quad (if 2 ≤ quad.length then pads + 1 else pads) acc
    else
      match b64SextetB b with
      | none => a2b_base64Go rest quad pads acc
      | some v =>
        match quad with
        | [] => a2b_base64Go rest [v] 0 acc
        | [a] => a2b_base64Go rest [a, v] 0 (acc ++ [a * 4 + v / 16])
        | [a, b2] => a2b_base64Go rest [a, b2, v] 0 (acc ++ [b2 % 16 * 16 + v / 4])
        | [_, _, c3] => a2b_base64Go rest [] 0 (acc ++ [c3 % 4 * 64 + v])
        | _ => .error .assertionError

/-- binascii.a2b_base64 on a byte string. -/
def a2b_base64 (bs : List Nat) : Except PyErr (List Nat) := a2b_base64Go bs [] 0 []

/-- The padding repair decode_header applies before base64-decoding: pad
the payload with equals signs up to a multiple of four. -/
def b64pad (p : List Char) : List Char :=
  if p.length % 4 = 0 then p else p ++ List.replicate (4 - p.length % 4) '='

/-- email.base64mime.decode: empty input gives empty bytes, otherwise the
str is encoded with raw-unicode-escape and handed to binascii.a2b_base64. -/
def base64mime_decode (s : List Char) : Except PyErr (List Nat) :=
  if s.isEmpty then .ok [] else a2b_base64 (rawUE s)

/-- Locate the first question-equals pair in the remainder of an encoded
word: the payload group of the encoded-word regex is lazy, so it ends at
the first such pair; the dot cannot cross a newline, so a newline before
any pair makes the match fail. -/
def splitAtQE : List Char → Option (List Char × List Char)
  | [] => none
  | c :: rest =>
    if c = '\n' then none
    else if c = '?' then
      match rest with
      | '=' :: r => some ([], r)
      | _ =>
        match splitAtQE rest with
        | some (p, r) => some ('?' :: p, r)
        | none => none
    else
      match splitAtQE rest with
      | some (p, r) => some (c :: p, r)
      | none => none

/-- Try the encoded-word regex of email.header anchored at the start of s:
equals, question mark, a charset free of question marks, question mark,
one of q Q b B, question mark, a lazy payload, question mark, equals.
Returns the charset, the encoding character, the payload and the rest. -/
def tryEW (s : List Char) : Option (List Char × Char × List Char × List Char) :=
  match s with
  | '=' :: '?' :: t =>
    let cs := t.takeWhile (fun c => c != '?')
    match t.dropWhile (fun c => c != '?') with
    | '?' :: e :: '?' :: u =>
      if e = 'q' ∨ e = 'Q' ∨ e = 'b' ∨ e = 'B' then
        match splitAtQE u with
        | some (p, r) => some (cs, e, p, r)
        | none => none
      else none
    | _ => none
  | _ => none

/-- Leftmost match of the encoded-word regex: the text before the match,
the three captured groups, and the text after it. -/
def findEW : List Char → Option (List Char × List Char × Char × List Char × List Char)
  | [] => none
  | c :: t =>
    match tryEW (c :: t) with
    | some (cs, e, p, r) => some ([], cs, e, p, r)
    | none =>
      match findEW t with
      | some (pre, cs, e, p, r) => some (c :: pre, cs, e, p, r)
      | none => none

/-- A token of the regex split of a header line: literal text or an
encoded word with its charset, encoding character and payload. -/
inductive Tok where
  | unenc : List Char → Tok
  | enc : List Char → Char → List Char → Tok
deriving DecidableEq, Repr

/-- Fuelled tokenizer by repeated leftmost matching; each match consumes
at least one character, so fuel one larger than the length suffices. -/
def ecreTokensF : Nat → List Char → List Tok
  | 0, _ => []
  | n + 1, s =>
    match findEW s with
    | none => [.unenc s]
    | some (pre, cs, e, p, rest) => .unenc pre :: .enc cs e p :: ecreTokensF n rest

/-- Split of one line into alternating literal and encoded-word tokens, as
re.split with the encoded-word pattern. -/
def ecreTokens (s : List Char) : List Tok := ecreTokensF (s.length + 1) s

/-- A word of decode_header before transfer decoding: either plain text or
a payload with its lowercased encoding character and lowercased charset. -/
inductive Word where
  | plain : List Char → Word
  | coded : List Char → Char → List Char → Word
deriving DecidableEq, Repr

/-- Turn the token list of one line into words: the first literal token of
the line is stripped of leading whitespace, empty literals are dropped,
and each encoded word keeps its payload with encoding and charset
lowercased. -/
def tokensToWords : Bool → List Tok → List Word
  | _, [] => []
  | first, .unenc s :: ts =>
    let s2 := if first then s.dropWhile isPySpace else s
    if s2.isEmpty then tokensToWords false ts else .plain s2 :: tokensToWords false ts
  | first, .enc cs e p :: ts => .coded p e.toLower (lowerStr cs) :: tokensToWords first ts

/-- Words of one physical line of the header. -/
def lineWords (line : List Char) : List Word := tokensToWords true (ecreTokens line)

/-- Python str.isspace: nonempty and all whitespace. -/
def isSpaceStr (s : List Char) : Bool := !s.isEmpty && s.all isPySpace

/-- The string payload of a word (used by the whitespace-dropping pass). -/
def wordStr : Word → List Char
  | .plain s => s
  | .coded p _ _ => p

/-- Whether a word is an encoded word. -/
def isCoded : Word → Bool
  | .plain _ => false
  | .coded _ _ _ => true

/-- Drop a word that is pure whitespace and sits between two encoded
words, as the droplist pass of decode_header. -/
def dropWsWords (ws : List Word) : List Word :=
  (List.range ws.length).filterMap (fun i =>
    if 1 ≤ i ∧ i + 1 < ws.length ∧
       isCoded (ws.getD (i + 1) (Word.plain [])) = true ∧
       isCoded (ws.getD (i - 1) (Word.plain [])) = true ∧
       isSpaceStr (wordStr (ws.getD i (Word.plain []))) = true
    then none else some (ws.getD i (Word.plain [])))

/-- Apply the transfer encoding of each word: plain text stays a str with
no charset, q-payloads are header-decoded to a str, b-payloads are padded
and base64-decoded to bytes; a base64 failure surfaces as the
HeaderParseError decode_header raises. -/
def decodeWords : List Word → Except PyErr (List ((List Char ⊕ List Nat) × Option (List Char)))
  | [] => .ok []
  | .plain s :: ws =>
    match decodeWords ws with
    | .ok out => .ok ((Sum.inl s, none) :: out)
    | .error e => .error e
  | .coded p e cs :: ws =>
    if e = 'q' then
      match decodeWords ws with
      | .ok out => .ok ((Sum.inl (header_decode p), some cs) :: out)
      | .error err => .error err
    else if e = 'b' then
      match base64mime_decode (b64pad p) with
      | .error _ => .error .headerParseError
      | .ok bts =>
        match decodeWords ws with
        | .ok out => .ok ((Sum.inr bts, some cs) :: out)
        | .error err => .error err
    else .error .assertionError

/-- bytes of a decoded word: a str goes through raw-unicode-escape. -/
def toBytesWord : (List Char ⊕ List Nat) → List Nat
  | Sum.inl s => rawUE s
  | Sum.inr b => b

/-- Collapse runs of equal charsets, joining the byte strings of a run
with a single space byte, as the final pass of decode_header. -/
def collapseGo (lw : List Nat) (lc : Option (List Char)) :
    List (List Nat × Option (List Char)) → List (List Nat × Option (List Char))
  | [] => [(lw, lc)]
  | (w, cs) :: rest =>
    if cs = lc then collapseGo (lw ++ 32 :: w) lc rest
    else (lw, lc) :: collapseGo w cs rest

/-- Collapse pass entry point. -/
def collapse (dws : List ((List Char ⊕ List Nat) × Option (List Char))) :
    List (List Nat × Option (List Char)) :=
  match dws with
  | [] => []
  | (w, cs) :: rest => collapseGo (toBytesWord w) cs (rest.map (fun p => (toBytesWord p.1, p.2)))

/-- email.header.decode_header: with no encoded word anywhere, the whole
header is returned as one str chunk with no charset; otherwise each line
is split into words, whitespace between adjacent encoded words is dropped,
payloads are transfer-decoded and the byte chunks are collapsed by
charset. -/
def decode_header (h : List Char) : Except PyErr (List ((List Char ⊕ List Nat) × Option (List Char))) :=
  if (findEW h).isNone then .ok [(Sum.inl h, none)]
  else
    match decodeWords (dropWsWords (((splitlines h).map lineWords).flatten)) with
    | .error e => .error e
    | .ok dws => .ok ((collapse dws).map (fun p => (Sum.inr p.1, p.2)))

/-- The default charset constant of parse.py. -/
def DEFAULT_CHARSET : List Char := "utf-8".data

/-- The truthiness fallback in decode_base64_encoded_email_header: a
missing or empty charset falls back to the default charset. -/
def pyOrDefault (cs : Option (List Char)) : List Char :=
  match cs with
  | none => DEFAULT_CHARSET
  | some [] => DEFAULT_CHARSET
  | some s => s

/-- The accumulation loop of decode_base64_encoded_email_header: byte
chunks are decoded with their charset (or the fallback) and every chunk is
concatenated in order. -/
def joinDecoded : List ((List Char ⊕ List Nat) × Option (List Char)) → Except PyErr (List Char)
  | [] => .ok []
  | (Sum.inl s, _) :: rest =>
    match joinDecoded rest with
    | .ok out => .ok (s ++ out)
    | .error e => .error e
  | (Sum.inr bs, cs) :: rest =>
    match pyDecode bs (pyOrDefault cs) with
    | .error e => .error e
    | .ok s =>
      match joinDecoded rest with
      | .ok out => .ok (s ++ out)
      | .error e => .error e

/-- decode_base64_encoded_email_header of parse.py. -/
def decode_base64_encoded_email_header (header : List Char) : Except PyErr (List Char) :=
  match decode_header header with
  | .error e => .error e
  | .ok pairs => joinDecoded pairs

/-- decode_email_header of parse.py: first the decode_header pass, then
quopri.decodestring on the resulting str, then a utf-8 decode of the
bytes. -/
def decode_email_header (header : List Char) : Except PyErr (List Char) :=
  match decode_base64_encoded_email_header header with
  | .error e => .error e
  | .ok h1 =>
    match quopri_decodestring h1 with
    | .error e => .error e
    | .ok bs => pyDecode bs DEFAULT_CHARSET

/-- The fields of interest constant of parse.py. -/
def DATA_FIELDNAMES : List (List Char) := ["date".data, "from".data, "subject".data]

/-- One message record: a Python dict from field name to decoded body,
modelled as an insertion-ordered association list with unique keys. -/
abbrev Data := List (List Char × List Char)

/-- dict.update with a single key: overwrite in place if present, else
append. -/
def dictUpdate (d : Data) (k v : List Char) : Data :=
  if d.any (fun p => p.1 == k) then d.map (fun p => if p.1 == k then (k, v) else p)
  else d ++ [(k, v)]

/-- dict.get returning none when the key is absent. -/
def dictGet (d : Data) (k : List Char) : Option (List Char) :=
  (d.find? (fun p => p.1 == k)).map (fun p => p.2)

/-- Greedy run of header-name characters at the start of a line and the
remainder; backtracking cannot produce any other split because the class
excludes the colon. -/
def splitName : List Char → List Char × List Char
  | [] => ([], [])
  | c :: rest =>
    if isFieldNameChar c then
      let p := splitName rest
      (c :: p.1, p.2)
    else ([], c :: rest)

/-- re.match of the header-start pattern: one or more name characters, a
colon, an optional single space, and the rest of the line as the body. -/
def matchHeader (line : List Char) : Option (List Char × List Char) :=
  let p := splitName line
  if p.1.isEmpty then none
  else
    match p.2 with
    | ':' :: rest => some (p.1, match rest with | ' ' :: b => b | b => b)
    | _ => none

/-- The continuation peek loop of parse_message, acting on the lines after
the header line: append each whitespace-led line to the body; stop at the
first line that does not lead with whitespace; running off the end of the
line list is the unguarded out-of-range access and raises IndexError. -/
def gatherCont : List (List Char) → List Char → Except PyErr (List Char)
  | [], _ => .error .indexError
  | l :: rest, acc => if startsWithSpace l then gatherCont rest (acc ++ l) else .ok acc

/-- The enumerate loop of parse_message over the remaining lines: skip a
whitespace-led line; a line matching no header start returns the dict; a
header of interest gathers continuations, decodes, and updates the dict;
other headers are skipped. Exhausting the lines falls off the loop and the
function returns None (modelled ok none). -/
def parseFrom : List (List Char) → Data → Except PyErr (Option Data)
  | [], _ => .ok none
  | line :: rest, data =>
    if startsWithSpace line then parseFrom rest data
    else
      match matchHeader line with
      | none => .ok (some data)
      | some (nm, body0) =>
        let hname := lowerStr nm
        if DATA_FIELDNAMES.contains hname then
          match gatherCont rest body0 with
          | .error e => .error e
          | .ok body1 =>
            match decode_email_header body1 with
            | .error e => .error e
            | .ok dec => parseFrom rest (dictUpdate data hname dec)
        else parseFrom rest data

/-- EmailParser.parse_message of parse.py on the text of one message. -/
def parse_message (contents : List Char) : Except PyErr (Option Data) :=
  parseFrom (splitlines contents) []

/-- Fuelled continuation loop: one unit of fuel per peek, returning the
leftover fuel; none when the fuel runs out. -/
def gatherContF : Nat → List (List Char) → List Char → Option (Nat × Except PyErr (List Char))
  | 0, _, _ => none
  | n + 1, [], _ => some (n, .error .indexError)
  | n + 1, l :: rest, acc =>
    if startsWithSpace l then gatherContF n rest (acc ++ l) else some (n, .ok acc)

/-- Fuelled scan loop: one unit of fuel per visited line, with the
continuation loop drawing from the same fuel pool; none when the fuel runs
out. -/
def parseFromF : Nat → List (List Char) → Data → Option (Except PyErr (Option Data))
  | fuel, [], _ =>
    match fuel with
    | 0 => none
    | _ + 1 => some (.ok none)
  | fuel, line :: rest, data =>
    match fuel with
    | 0 => none
    | n + 1 =>
      if startsWithSpace line then parseFromF n rest data
      else
        match matchHeader line with
        | none => some (.ok (some data))
        | some (nm, body0) =>
          let hname := lowerStr nm
          if DATA_FIELDNAMES.contains hname then
            match gatherContF n rest body0 with
            | none => none
            | some (_, .error e) => some (.error e)
            | some (n2, .ok body1) =>
              match decode_email_header body1 with
              | .error e => some (.error e)
              | .ok dec => parseFromF n2 rest (dictUpdate data hname dec)
          else parseFromF n rest data

/-- parse_message with a step budget: every loop iteration of the scan
(outer visit or continuation peek) costs one unit of fuel. -/
def parse_messageF (fuel : Nat) (contents : List Char) : Option (Except PyErr (Option Data)) :=
  parseFromF fuel (splitlines contents) []

/-- Characters the csv writer must escape under QUOTE_NONE with this
dialect: the delimiter, the escape character, the quote character and the
line terminator characters. -/
def csvEscapeChar (c : Char) : Bool :=
  decide (c = '|' ∨ c = '\\' ∨ c = '"' ∨ c = '\r' ∨ c = '\n')

/-- One field as written under QUOTE_NONE with escapechar backslash. -/
def csvField (s : List Char) : List Char :=
  (s.map (fun c => if csvEscapeChar c then ['\\', c] else [c])).flatten

/-- One row as written by the csv writer of get_csv_writer: fields joined
by the pipe delimiter, terminated by the default carriage-return newline. -/
def csvRow (fields : List (List Char)) : List Char :=
  (List.intersperse ['|'] (fields.map csvField)).flatten ++ ['\r', '\n']

/-- DictWriter row restricted to the configured field names in order, with
the default empty restval for absent keys and extra keys ignored. -/
def rowFor (d : Data) : List (List Char) :=
  DATA_FIELDNAMES.map (fun f => (dictGet d f).getD [])

/-- The writer loop of run over already-read message texts: each message
is parsed and written as one row; a parse that returns None crashes the
row conversion (an attribute error on None), and any parse exception
propagates. -/
def runRows : List (List Char) → Except PyErr (List Char)
  | [] => .ok []
  | m :: ms =>
    match parse_message m with
    | .error e => .error e
    | .ok none => .error .attributeError
    | .ok (some d) =>
      match runRows ms with
      | .error e => .error e
      | .ok rest => .ok (csvRow (rowFor d) ++ rest)

/-- The run command of parse.py restricted to its output content: the
header row followed by one row per message. -/
def run (msgs : List (List Char)) : Except PyErr (List Char) :=
  match runRows msgs with
  | .error e => .error e
  | .ok rest => .ok (csvRow DATA_FIELDNAMES ++ rest)

/-- The record list run extracts, used to state the writer theorem: the
per-message dicts in order, failing where run fails. -/
def parseRecords : List (List Char) → Except PyErr (List Data)
  | [] => .ok []
  | m :: ms =>
    match parse_message m with
    | .error e => .error e
    | .ok none => .error .attributeError
    | .ok (some d) =>
      match parseRecords ms with
      | .error e => .error e
      | .ok ds => .ok (d :: ds)

theorem char_ofNat_toNat (c : Char) : Char.ofNat c.toNat = c := by
  have hv : Nat.isValidChar c.toNat := c.valid
  apply Char.eq_of_val_eq
  simp only [Char.ofNat, hv, dif_pos, Char.ofNatAux]
  apply UInt32.eq_of_toBitVec_eq
  apply BitVec.eq_of_toNat_eq
  rfl

theorem splitlines_cons_lf (t : List Char) : splitlines ('\n' :: t) = [] :: splitlines t := rfl

theorem splitlines_cons_nobreak (c : Char) (t : List Char) (h : isLineBreak c = false) :
    splitlines (c :: t) = consHead c (splitlines t) := by
  have hr : c ≠ '\r' := by
    intro e
    rw [e] at h
    simp [isLineBreak] at h
  rw [splitlines.eq_def]
  cases t with
  | nil => simp [h]
  | cons d t2 =>
    by_cases hd : d = '\n'
    · subst hd
      simp [hr, h]
    · simp [hr, hd, h]

theorem splitlines_append (xs rest : List Char) (h : ∀ c ∈ xs, isLineBreak c = false) :
    splitlines (xs ++ '\n' :: rest) = xs :: splitlines rest := by
  induction xs with
  | nil => exact splitlines_cons_lf rest
  | cons c xs2 ih =>
    have hc : isLineBreak c = false := h c (by simp)
    have ih2 := ih (fun d hd => h d (by simp [hd]))
    rw [List.cons_append, splitlines_cons_nobreak c _ hc, ih2]
    rfl

theorem splitlines_singleton (xs : List Char) (hne : xs ≠ [])
    (h : ∀ c ∈ xs, isLineBreak c = false) : splitlines xs = [xs] := by
  induction xs with
  | nil => exact absurd rfl hne
  | cons c xs2 ih =>
    have hc : isLineBreak c = false := h c (by simp)
    rw [splitlines_cons_nobreak c _ hc]
    cases xs2 with
    | nil => rfl
    | cons d t =>
      rw [ih (by simp) (fun e he => h e (by simp [he]))]
      rfl

theorem splitName_fieldchars (xs ys : List Char) (h : ∀ c ∈ xs, isFieldNameChar c = true) :
    splitName (xs ++ ys) = (xs ++ (splitName ys).1, (splitName ys).2) := by
  induction xs with
  | nil => simp
  | cons c xs2 ih =>
    have hc : isFieldNameChar c = true := h c (by simp)
    rw [List.cons_append]
    simp only [splitName, hc, if_pos, ih (fun d hd => h d (by simp [hd]))]
    simp

theorem a2b_qpF_id (n : Nat) : ∀ s : List Char, s.length < n → ('=' ∉ s) →
    a2b_qpF n s = s.map Char.toNat := by
  induction n with
  | zero => intro s hs _; simp at hs
  | succ n ih =>
    intro s hs hq
    cases s with
    | nil => rfl
    | cons c t =>
      have hc : ¬ c = '=' := fun e => hq (by simp [e])
      simp only [a2b_qpF, if_neg hc, List.map]
      rw [ih t (by simpa using Nat.lt_of_succ_lt_succ hs) (fun m => hq (List.mem_cons_of_mem _ m))]

theorem utf8Decode_map_toNat (s : List Char) (h : ∀ c ∈ s, c.toNat < 128) :
    utf8Decode (s.map Char.toNat) = .ok s := by
  induction s with
  | nil => rfl
  | cons c t ih =>
    have hc : c.toNat < 128 := h c (by simp)
    have ih2 : utf8GoSt none (List.map Char.toNat t) = .ok t :=
      ih (fun d hd => h d (by simp [hd]))
    show utf8GoSt none (c.toNat :: List.map Char.toNat t) = .ok (c :: t)
    rw [utf8GoSt.eq_def]
    simp [hc, ih2, char_ofNat_toNat]

theorem pyDecode_default (bs : List Nat) : pyDecode bs DEFAULT_CHARSET = utf8Decode bs := rfl

/-- C4 as stated is false: on an encoded-word-free body that contains an
equals sign followed by two hex digits, the decoder applies
quoted-printable decoding instead of returning the input: the body
equals-four-one, which contains no encoded word, decodes to the letter A. -/
theorem c4_counterexample :
    findEW ("=41".data) = none ∧ decode_email_header ("=41".data) = .ok ("A".data) ∧
    "A".data ≠ "=41".data :=
  ⟨rfl, rfl, by decide⟩

/-- C4 amended: for every header body with no encoded word that is pure
ASCII and contains no equals sign, decode_email_header returns the input
unchanged. -/
theorem c4_decoder_identity (h : List Char) (hew : findEW h = none)
    (hascii : ∀ c ∈ h, c.toNat < 128) (heq : '=' ∉ h) :
    decode_email_header h = .ok h := by
  have h1 : decode_header h = .ok [(Sum.inl h, none)] := by
    simp [decode_header, hew]
  have h2 : decode_base64_encoded_email_header h = .ok h := by
    simp [decode_base64_encoded_email_header, h1, joinDecoded]
  have hall : h.all (fun c => c.toNat < 128) = true := by
    rw [List.all_eq_true]
    intro c hc
    exact decide_eq_true (hascii c hc)
  have h3 : quopri_decodestring h = .ok (h.map Char.toNat) := by
    simp only [quopri_decodestring, hall, if_pos, a2b_qp]
    rw [a2b_qpF_id (h.length + 1) h (by omega) heq]
  simp [decode_email_header, h2, h3, pyDecode_default, utf8Decode_map_toNat h hascii]

/-- Witness for the amended C4 at a concrete encoded-word-free ASCII body
with no equals sign. -/
theorem c4_decoder_identity_witness :
    findEW ("Hello, world".data) = none ∧ (∀ c ∈ ("Hello, world".data), c.toNat < 128) ∧
    ('=' ∉ ("Hello, world".data)) ∧
    decode_email_header ("Hello, world".data) = .ok ("Hello, world".data) :=
  ⟨by decide, by decide, by decide, c4_decoder_identity _ (by decide) (by decide) (by decide)⟩

/-- C1: on the end-to-end message of the claim, parse_message raises
ValueError instead of producing a record: the base64 pass decodes the
sender to a non-ASCII str, and quopri.decodestring rejects a non-ASCII
str argument. -/
theorem c1_end_to_end_crashes :
    parse_message ("Date: Mon, 1 Jan 2024 00:00:00 +0000\nFrom: =?UTF-8?B?SsO2cmc=?= <j@example.com>\nSubject: Hello\n\nbody".data) =
      .error .valueError := rfl

/-- C2: a message whose lines are exhausted inside the header section
makes parse_message fall off its loop, which returns Python None (ok none
in this embedding) rather than the accumulated dict: here the captured
date field is lost. -/
theorem c2_exhausted_lines_return_none :
    parse_message ("Date: x\nX-Other: y".data) = .ok none := rfl

/-- C3: when the final physical line is a field-of-interest header, the
continuation peek reads one line past the end of the line list with no
guard and parse_message raises IndexError. -/
theorem c3_last_line_header_index_error :
    parse_message ("Subject: Hello".data) = .error .indexError := rfl

/-- C6 as stated is false: an empty physical line is not skipped; at the
empty first line of this message the scan returns immediately with the
empty record, never reaching the Subject header behind it. -/
theorem c6_counterexample :
    parse_message ("\nSubject: Hi\nx".data) = .ok (some []) ∧
    dictGet [] ("subject".data) = none :=
  ⟨rfl, rfl⟩

/-- C6 amended: an empty physical line that was not consumed as a
continuation terminates the scan; parse_message returns the record
accumulated so far at that point. -/
theorem c6_empty_line_terminates (rest : List (List Char)) (data : Data) :
    parseFrom ([] :: rest) data = .ok (some data) := rfl

/-- C8: a line that begins with whitespace, which is what every
continuation line of a field-not-of-interest header is, is skipped by the
scan step: it is never matched as a header start and never terminates the
scan, which proceeds with the following lines unchanged. -/
theorem c8_whitespace_line_skipped (l : List Char) (rest : List (List Char)) (data : Data)
    (h : startsWithSpace l = true) : parseFrom (l :: rest) data = parseFrom rest data := by
  simp [parseFrom, h]

/-- Witness for C8 at a concrete continuation line of an uninteresting
header. -/
theorem c8_whitespace_line_skipped_witness :
    startsWithSpace (" not-a-header: really".data) = true ∧
    parseFrom ([" not-a-header: really".data, "Subject: s".data, "end".data]) [] =
      parseFrom (["Subject: s".data, "end".data]) [] :=
  ⟨by decide, c8_whitespace_line_skipped _ _ _ (by decide)⟩

/-- C7: in a message carrying two Subject headers, with any bodies free of
line terminators, the scan stores the decoded body of the first and then
overwrites it with the decoded body of the second, so the returned record
maps subject to the decoded body of the last occurrence. -/
theorem c7_last_occurrence_wins (a b a2 b2 : List Char)
    (ha : ∀ c ∈ a, isLineBreak c = false) (hb : ∀ c ∈ b, isLineBreak c = false)
    (hda : decode_email_header a = .ok a2) (hdb : decode_email_header b = .ok b2) :
    parse_message (("Subject: ".data ++ a) ++ ('\n' :: (("Subject: ".data ++ b) ++ ('\n' :: 'x' :: [])))) =
      .ok (some [("subject".data, b2)]) := by
  have hconc : ∀ c ∈ "Subject: ".data, isLineBreak c = false := by decide
  have h1 : ∀ c ∈ "Subject: ".data ++ a, isLineBreak c = false := by
    intro c hc
    rcases List.mem_append.mp hc with h | h
    · exact hconc c h
    · exact ha c h
  have h2 : ∀ c ∈ "Subject: ".data ++ b, isLineBreak c = false := by
    intro c hc
    rcases List.mem_append.mp hc with h | h
    · exact hconc c h
    · exact hb c h
  have hsplit : splitlines (("Subject: ".data ++ a) ++ ('\n' :: (("Subject: ".data ++ b) ++ ('\n' :: 'x' :: [])))) =
      [ "Subject: ".data ++ a, "Subject: ".data ++ b, ['x'] ] := by
    rw [splitlines_append _ _ h1, splitlines_append _ _ h2]
    rfl
  show parseFrom (splitlines _) [] = _
  rw [hsplit]
  have st1 : parseFrom [ "Subject: ".data ++ a, "Subject: ".data ++ b, ['x'] ] [] =
      parseFrom [ "Subject: ".data ++ b, ['x'] ] (dictUpdate [] ("subject".data) a2) := by
    rw [show parseFrom [ "Subject: ".data ++ a, "Subject: ".data ++ b, ['x'] ] [] =
        (match decode_email_header a with
         | .error e => .error e
         | .ok dec => parseFrom [ "Subject: ".data ++ b, ['x'] ] (dictUpdate [] ("subject".data) dec))
      from rfl, hda]
  have st2 : parseFrom [ "Subject: ".data ++ b, ['x'] ] (dictUpdate [] ("subject".data) a2) =
      parseFrom [ ['x'] ] (dictUpdate (dictUpdate [] ("subject".data) a2) ("subject".data) b2) := by
    rw [show parseFrom [ "Subject: ".data ++ b, ['x'] ] (dictUpdate [] ("subject".data) a2) =
        (match decode_email_header b with
         | .error e => .error e
         | .ok dec => parseFrom [ ['x'] ]
             (dictUpdate (dictUpdate [] ("subject".data) a2) ("subject".data) dec))
      from rfl, hdb]
  rw [st1, st2]
  rfl

/-- Witness for C7 at two concrete one-line Subject headers. -/
theorem c7_last_occurrence_wins_witness :
    (∀ c ∈ ("A".data), isLineBreak c = false) ∧ (∀ c ∈ ("B".data), isLineBreak c = false) ∧
    decode_email_header ("A".data) = .ok ("A".data) ∧
    decode_email_header ("B".data) = .ok ("B".data) ∧
    parse_message (("Subject: ".data ++ "A".data) ++ ('\n' :: (("Subject: ".data ++ "B".data) ++ ('\n' :: 'x' :: [])))) =
      .ok (some [("subject".data, "B".data)]) :=
  ⟨by decide, by decide, rfl, rfl,
    c7_last_occurrence_wins _ _ _ _ (by decide) (by decide) rfl rfl⟩

theorem takeWhile_len_le {α : Type} (p : α → Bool) (l : List α) :
    (l.takeWhile p).length ≤ l.length := by
  induction l with
  | nil => simp
  | cons a t ih =>
    rw [List.takeWhile_cons]
    split
    · simpa using ih
    · simp

theorem gatherContF_spec (rest : List (List Char)) : ∀ fuel acc,
    (rest.takeWhile startsWithSpace).length + 1 ≤ fuel →
    gatherContF fuel rest acc =
      some (fuel - ((rest.takeWhile startsWithSpace).length + 1), gatherCont rest acc) := by
  induction rest with
  | nil =>
    intro fuel acc h
    cases fuel with
    | zero => simp at h
    | succ n => rfl
  | cons l r ih =>
    intro fuel acc h
    by_cases hw : startsWithSpace l = true
    · rw [List.takeWhile_cons_of_pos hw] at h ⊢
      cases fuel with
      | zero => simp at h
      | succ n =>
        have hlen : (l :: List.takeWhile startsWithSpace r).length =
            (List.takeWhile startsWithSpace r).length + 1 := rfl
        have h2 : (List.takeWhile startsWithSpace r).length + 1 ≤ n := by omega
        have hstep : gatherContF (n + 1) (l :: r) acc = gatherContF n r (acc ++ l) := by
          simp only [gatherContF, hw, eq_self_iff_true, if_true]
        rw [hstep, ih n (acc ++ l) h2]
        have hg : gatherCont (l :: r) acc = gatherCont r (acc ++ l) := by
          simp only [gatherCont, hw, eq_self_iff_true, if_true]
        rw [hg, hlen]
        have harith : n - ((List.takeWhile startsWithSpace r).length + 1) =
            n + 1 - ((List.takeWhile startsWithSpace r).length + 1 + 1) := by omega
        rw [harith]
    · have hw2 : startsWithSpace l = false := by
        cases hsw : startsWithSpace l
        · rfl
        · exact absurd hsw hw
      rw [List.takeWhile_cons_of_neg (by simp [hw2])] at h ⊢
      cases fuel with
      | zero => simp at h
      | succ n =>
        have hstep : gatherContF (n + 1) (l :: r) acc = some (n, .ok acc) := by
          simp only [gatherContF, hw2, Bool.false_eq_true, if_false]
        have hg : gatherCont (l :: r) acc = .ok acc := by
          simp only [gatherCont, hw2, Bool.false_eq_true, if_false]
        rw [hstep, hg]
        rfl

theorem parseFromF_spec (L : List (List Char)) : ∀ fuel data,
    2 * L.length + 1 ≤ fuel + (L.takeWhile startsWithSpace).length →
    parseFromF fuel L data = some (parseFrom L data) := by
  induction L with
  | nil =>
    intro fuel data h
    cases fuel with
    | zero => simp at h
    | succ n => rfl
  | cons l r ih =>
    intro fuel data h
    have htw : ((l :: r).takeWhile startsWithSpace).length ≤ (l :: r).length :=
      takeWhile_len_le _ _
    have hlc : (l :: r).length = r.length + 1 := rfl
    have hfuel : 0 < fuel := by omega
    obtain ⟨n, rfl⟩ : ∃ n, fuel = n + 1 := ⟨fuel - 1, by omega⟩
    have hrtw : (r.takeWhile startsWithSpace).length ≤ r.length := takeWhile_len_le _ _
    by_cases hw : startsWithSpace l = true
    · rw [List.takeWhile_cons_of_pos hw] at h
      have hlen : (l :: r.takeWhile startsWithSpace).length =
          (r.takeWhile startsWithSpace).length + 1 := rfl
      rw [hlen, hlc] at h
      have hstep : parseFromF (n + 1) (l :: r) data = parseFromF n r data := by
        simp only [parseFromF, hw, eq_self_iff_true, if_true]
      have hstep2 : parseFrom (l :: r) data = parseFrom r data := by
        simp only [parseFrom, hw, eq_self_iff_true, if_true]
      rw [hstep, hstep2]
      exact ih n data (by omega)
    · have hw2 : startsWithSpace l = false := by
        cases hsw : startsWithSpace l
        · rfl
        · exact absurd hsw hw
      rw [List.takeWhile_cons_of_neg (by simp [hw2]), hlc] at h
      simp only [List.length_nil] at h
      cases hm : matchHeader l with
      | none =>
        have e1 : parseFromF (n + 1) (l :: r) data = some (.ok (some data)) := by
          simp only [parseFromF, hw2, Bool.false_eq_true, if_false, hm]
        have e2 : parseFrom (l :: r) data = .ok (some data) := by
          simp only [parseFrom, hw2, Bool.false_eq_true, if_false, hm]
        rw [e1, e2]
      | some pr =>
        obtain ⟨nm, body0⟩ := pr
        by_cases hin : DATA_FIELDNAMES.contains (lowerStr nm) = true
        · have e1 : parseFromF (n + 1) (l :: r) data =
              (match gatherContF n r body0 with
               | none => none
               | some (_, .error e) => some (.error e)
               | some (n2, .ok body1) =>
                 match decode_email_header body1 with
                 | .error e => some (.error e)
                 | .ok dec => parseFromF n2 r (dictUpdate data (lowerStr nm) dec)) := by
            simp only [parseFromF, hw2, Bool.false_eq_true, if_false, hm, hin,
              eq_self_iff_true, if_true]
          have e2 : parseFrom (l :: r) data =
              (match gatherCont r body0 with
               | .error e => .error e
               | .ok body1 =>
                 match decode_email_header body1 with
                 | .error e => .error e
                 | .ok dec => parseFrom r (dictUpdate data (lowerStr nm) dec)) := by
            simp only [parseFrom, hw2, Bool.false_eq_true, if_false, hm, hin,
              eq_self_iff_true, if_true]
          rw [e1, e2, gatherContF_spec r n body0 (by omega)]
          cases hgc : gatherCont r body0 with
          | error e => rfl
          | ok body1 =>
            show (match decode_email_header body1 with
                  | .error e => some (.error e)
                  | .ok dec => parseFromF (n - ((r.takeWhile startsWithSpace).length + 1)) r
                      (dictUpdate data (lowerStr nm) dec)) =
                some (match decode_email_header body1 with
                  | .error e => Except.error e
                  | .ok dec => parseFrom r (dictUpdate data (lowerStr nm) dec))
            cases hd : decode_email_header body1 with
            | error e => rfl
            | ok dec =>
              exact ih (n - ((r.takeWhile startsWithSpace).length + 1))
                (dictUpdate data (lowerStr nm) dec) (by omega)
        · have hin2 : DATA_FIELDNAMES.contains (lowerStr nm) = false := by
            cases hc : DATA_FIELDNAMES.contains (lowerStr nm)
            · rfl
            · exact absurd hc hin
          have e1 : parseFromF (n + 1) (l :: r) data = parseFromF n r data := by
            simp only [parseFromF, hw2, Bool.false_eq_true, if_false, hm, hin2]
          have e2 : parseFrom (l :: r) data = parseFrom r data := by
            simp only [parseFrom, hw2, Bool.false_eq_true, if_false, hm, hin2]
          rw [e1, e2]
          exact ih n data (by omega)

/-- C10: the scan loop of parse_message needs only a budget linear in the
number of physical lines: with fuel at least twice the line count plus
one, the step-counting scan finishes and agrees with the unbounded one;
in particular the continuation peek strictly advances and the scan
terminates on every finite input. -/
theorem c10_scan_fuel_bound (contents : List Char) (fuel : Nat)
    (h : 2 * (splitlines contents).length + 1 ≤ fuel) :
    parse_messageF fuel contents = some (parse_message contents) :=
  parseFromF_spec (splitlines contents) fuel []
    (Nat.le_trans h (Nat.le_add_right _ _))

/-- Witness for C10 at a concrete two-line message. -/
theorem c10_scan_fuel_bound_witness :
    2 * (splitlines ("Subject: Hi\nx".data)).length + 1 ≤ 9 ∧
    parse_messageF 9 ("Subject: Hi\nx".data) = some (parse_message ("Subject: Hi\nx".data)) :=
  ⟨by decide, c10_scan_fuel_bound _ _ (by decide)⟩

theorem runRows_of_parseRecords (msgs : List (List Char)) : ∀ ds,
    parseRecords msgs = .ok ds →
    runRows msgs = .ok ((ds.map (fun d => csvRow (rowFor d))).flatten) ∧
      ds.length = msgs.length := by
  induction msgs with
  | nil =>
    intro ds h
    simp only [parseRecords] at h
    cases h
    exact ⟨rfl, rfl⟩
  | cons m ms ih =>
    intro ds h
    simp only [parseRecords] at h
    cases hp : parse_message m with
    | error e => rw [hp] at h; simp at h
    | ok od =>
      cases od with
      | none => rw [hp] at h; simp at h
      | some d =>
        rw [hp] at h
        cases hr : parseRecords ms with
        | error e => rw [hr] at h; simp at h
        | ok ds2 =>
          rw [hr] at h
          simp only [Except.ok.injEq] at h
          subst h
          obtain ⟨ih1, ih2⟩ := ih ds2 hr
          constructor
          · have e1 : runRows (m :: ms) =
                (match runRows ms with
                 | .error e => .error e
                 | .ok rest => .ok (csvRow (rowFor d) ++ rest)) := by
              rw [show runRows (m :: ms) =
                  (match parse_message m with
                   | .error e => .error e
                   | .ok none => .error .attributeError
                   | .ok (some d2) =>
                     match runRows ms with
                     | .error e => .error e
                     | .ok rest => .ok (csvRow (rowFor d2) ++ rest)) from rfl, hp]
            rw [e1, ih1]
            simp
          · simp [ih2]

/-- C9: whenever every message parses to a record, the output of run is
exactly the header row date pipe from pipe subject followed, in order, by
one row per message; a row lists the three configured fields joined by the
pipe delimiter with backslash escaping and no quoting, and a field absent
from the record is written as the empty string by rowFor. -/
theorem c9_writer_format (msgs : List (List Char)) (ds : List Data)
    (h : parseRecords msgs = .ok ds) :
    run msgs = .ok ((csvRow DATA_FIELDNAMES) ++ (ds.map (fun d => csvRow (rowFor d))).flatten) ∧
    csvRow DATA_FIELDNAMES = "date|from|subject".data ++ ['\r', '\n'] ∧
    ds.length = msgs.length ∧
    (∀ d : Data, rowFor d = [((dictGet d ("date".data)).getD []),
      ((dictGet d ("from".data)).getD []), ((dictGet d ("subject".data)).getD [])]) := by
  obtain ⟨h1, h2⟩ := runRows_of_parseRecords msgs ds h
  refine ⟨?_, rfl, h2, fun d => rfl⟩
  simp only [run]
  rw [h1]

/-- Witness for C9 at a one-message archive whose record lacks the date
and from fields. -/
theorem c9_writer_format_witness :
    parseRecords (["Subject: Hi\nx".data]) = .ok [[("subject".data, "Hi".data)]] ∧
    run (["Subject: Hi\nx".data]) =
      .ok ((csvRow DATA_FIELDNAMES) ++
        (([[("subject".data, "Hi".data)]] : List Data).map (fun d => csvRow (rowFor d))).flatten) :=
  ⟨rfl, (c9_writer_format (["Subject: Hi\nx".data]) ([[("subject".data, "Hi".data)]]) rfl).1⟩

theorem splitAtQE_append (p r : List Char) (hq : '?' ∉ p) (hn : '\n' ∉ p) :
    splitAtQE (p ++ '?' :: '=' :: r) = some (p, r) := by
  induction p with
  | nil => rfl
  | cons c t ih =>
    have hc : ¬ c = '?' := fun e => hq (by simp [e])
    have hcn : ¬ c = '\n' := fun e => hn (by simp [e])
    have ih2 := ih (fun m => hq (List.mem_cons_of_mem _ m)) (fun m => hn (List.mem_cons_of_mem _ m))
    rw [List.cons_append]
    simp only [splitAtQE, if_neg hc, if_neg hcn, ih2]

theorem tryEW_absent (p : List Char) (hq : '?' ∉ p) (hn : '\n' ∉ p) :
    tryEW ('=' :: '?' :: '?' :: 'B' :: '?' :: (p ++ '?' :: '=' :: [])) =
      some ([], 'B', p, []) := by
  have hs := splitAtQE_append p [] hq hn
  show (match splitAtQE (p ++ '?' :: '=' :: []) with
        | some (pp, r) => some (([] : List Char), 'B', pp, r)
        | none => none) = some ([], 'B', p, [])
  rw [hs]

theorem findEW_absent (p : List Char) (hq : '?' ∉ p) (hn : '\n' ∉ p) :
    findEW ("=??B?".data ++ (p ++ "?=".data)) = some ([], [], 'B', p, []) := by
  have ht := tryEW_absent p hq hn
  show (match tryEW ('=' :: '?' :: '?' :: 'B' :: '?' :: (p ++ '?' :: '=' :: [])) with
        | some (cs, e, pp, r) => some (([] : List Char), cs, e, pp, r)
        | none =>
          match findEW ('?' :: '?' :: 'B' :: '?' :: (p ++ '?' :: '=' :: [])) with
          | some (pre, cs, e, pp, r) => some ('=' :: pre, cs, e, pp, r)
          | none => none) = some ([], [], 'B', p, [])
  rw [ht]

theorem ecreTokens_absent (p : List Char) (hq : '?' ∉ p) (hn : '\n' ∉ p) :
    ecreTokens ("=??B?".data ++ (p ++ "?=".data)) =
      [Tok.unenc [], Tok.enc [] 'B' p, Tok.unenc []] := by
  have hf := findEW_absent p hq hn
  show ecreTokensF (("=??B?".data ++ (p ++ "?=".data)).length + 1)
      ("=??B?".data ++ (p ++ "?=".data)) = _
  rw [show ecreTokensF (("=??B?".data ++ (p ++ "?=".data)).length + 1)
        ("=??B?".data ++ (p ++ "?=".data)) =
      (match findEW ("=??B?".data ++ (p ++ "?=".data)) with
       | none => [Tok.unenc ("=??B?".data ++ (p ++ "?=".data))]
       | some (pre, cs, e, pl, rest) =>
         Tok.unenc pre :: Tok.enc cs e pl ::
           ecreTokensF (("=??B?".data ++ (p ++ "?=".data)).length) rest)
    from rfl, hf]
  have hfive : ("=??B?".data).length = 5 := rfl
  have htwo : ("?=".data).length = 2 := rfl
  have hlen : ("=??B?".data ++ (p ++ "?=".data)).length = p.length + 7 := by
    simp only [List.length_append, hfive, htwo]
    omega
  rw [hlen]
  rfl

theorem decode_header_absent (p : List Char) (hq : '?' ∉ p)
    (hbp : ∀ c ∈ p, isLineBreak c = false) :
    decode_header ("=??B?".data ++ (p ++ "?=".data)) =
      (match base64mime_decode (b64pad p) with
       | .error _ => .error PyErr.headerParseError
       | .ok bts => .ok [(Sum.inr bts, some ([] : List Char))]) := by
  have hn : '\n' ∉ p := fun m => by
    have h2 := hbp '\n' m
    simp [isLineBreak] at h2
  have hf := findEW_absent p hq hn
  have hne : ("=??B?".data ++ (p ++ "?=".data)) ≠ [] := by
    intro h
    rw [show "=??B?".data = '=' :: '?' :: '?' :: 'B' :: '?' :: [] from rfl] at h
    simp at h
  have hbreak : ∀ c ∈ ("=??B?".data ++ (p ++ "?=".data)), isLineBreak c = false := by
    intro c hc
    rcases List.mem_append.mp hc with h | h
    · exact (by decide : ∀ c ∈ "=??B?".data, isLineBreak c = false) c h
    · rcases List.mem_append.mp h with h2 | h2
      · exact hbp c h2
      · exact (by decide : ∀ c ∈ "?=".data, isLineBreak c = false) c h2
  have hsingle := splitlines_singleton _ hne hbreak
  have htok := ecreTokens_absent p hq hn
  have hwords : dropWsWords (((splitlines ("=??B?".data ++ (p ++ "?=".data))).map lineWords).flatten) =
      [Word.coded p 'b' []] := by
    rw [hsingle]
    simp only [List.map_cons, List.map_nil, List.flatten_cons, List.flatten_nil, List.append_nil]
    rw [show lineWords ("=??B?".data ++ (p ++ "?=".data)) =
        tokensToWords true (ecreTokens ("=??B?".data ++ (p ++ "?=".data))) from rfl, htok]
    rfl
  rw [show decode_header ("=??B?".data ++ (p ++ "?=".data)) =
      (if (findEW ("=??B?".data ++ (p ++ "?=".data))).isNone then
        .ok [(Sum.inl ("=??B?".data ++ (p ++ "?=".data)), none)]
      else
        match decodeWords (dropWsWords (((splitlines ("=??B?".data ++ (p ++ "?=".data))).map lineWords).flatten)) with
        | .error e => .error e
        | .ok dws => .ok ((collapse dws).map (fun q => (Sum.inr q.1, q.2))))
    from rfl, hf]
  simp only [Option.isNone_some, Bool.false_eq_true, if_false]
  rw [hwords]
  rw [show decodeWords [Word.coded p 'b' []] =
      (match base64mime_decode (b64pad p) with
       | .error _ => .error PyErr.headerParseError
       | .ok bts => .ok [(Sum.inr bts, some ([] : List Char))]) from rfl]
  cases hb : base64mime_decode (b64pad p) with
  | error e => rfl
  | ok bts => rfl

/-- C5 as stated is false: an encoded word declaring the charset
x-unknown, which the runtime codec registry cannot resolve, makes the
decoder raise LookupError instead of falling back to UTF-8. -/
theorem c5_counterexample :
    decode_base64_encoded_email_header ("=?x-unknown?B?aGk=?=".data) = .error .lookupError := rfl

/-- C5 amended: for every encoded word whose declared charset is absent
(empty), the decoder decodes the base64 payload and interprets the bytes
with the default charset UTF-8, so it returns a decoded string whenever
that interpretation succeeds; an unrecognized declared charset instead
fails (see the counterexample). -/
theorem c5_absent_charset_utf8_fallback (p : List Char) (hq : '?' ∉ p)
    (hbp : ∀ c ∈ p, isLineBreak c = false) :
    decode_base64_encoded_email_header ("=??B?".data ++ (p ++ "?=".data)) =
      (match base64mime_decode (b64pad p) with
       | .error _ => .error PyErr.headerParseError
       | .ok bts => pyDecode bts DEFAULT_CHARSET) := by
  have hdh := decode_header_absent p hq hbp
  rw [show decode_base64_encoded_email_header ("=??B?".data ++ (p ++ "?=".data)) =
      (match decode_header ("=??B?".data ++ (p ++ "?=".data)) with
       | .error e => .error e
       | .ok pairs => joinDecoded pairs) from rfl, hdh]
  cases hb : base64mime_decode (b64pad p) with
  | error e => rfl
  | ok bts =>
    show (match pyDecode bts DEFAULT_CHARSET with
          | .error e => .error e
          | .ok s =>
            match joinDecoded [] with
            | .ok out => .ok (s ++ out)
            | .error e => .error e) = pyDecode bts DEFAULT_CHARSET
    cases hp2 : pyDecode bts DEFAULT_CHARSET with
    | error e => rfl
    | ok s =>
      show Except.ok (s ++ ([] : List Char)) = Except.ok s
      simp

/-- Witness for the amended C5 at a concrete absent-charset encoded word
whose payload decodes to the ASCII string hi. -/
theorem c5_absent_charset_utf8_fallback_witness :
    ('?' ∉ ("aGk=".data)) ∧ (∀ c ∈ ("aGk=".data), isLineBreak c = false) ∧
    decode_base64_encoded_email_header ("=??B?".data ++ ("aGk=".data ++ "?=".data)) =
      .ok ("hi".data) := by
  refine ⟨by decide, by decide, ?_⟩
  rw [c5_absent_charset_utf8_fallback ("aGk=".data) (by decide) (by decide)]
  rfl
